import Mathlib

/-!
Shallow embedding of `poker.py`: a 5-card poker hand classifier, a hand
comparator and a replacement search over leading deck cards.

Python strings of rank/suit symbols are modelled as `List Char`; Python
exceptions are modelled with `Option` (`none` = the operation raises).
Python sets of cards are modelled as deduplicated lists: the original
program keys set membership on `hash(str(card))` and two-character card
strings are pairwise distinct, so set membership coincides with
structural equality of the (value, suit) pair; iteration order of a
Python set is unspecified, and this embedding fixes one concrete order.
-/

/-- The fixed rank order string `CARD_VALUE_ORDER = 'a23456789tjqk'`. -/
def CARD_VALUE_ORDER : List Char :=
  ['a', '2', '3', '4', '5', '6', '7', '8', '9', 't', 'j', 'q', 'k']

/-- The suit alphabet `SUITS = 'hscd'`. -/
def SUITS : List Char := ['h', 's', 'c', 'd']

/-- `str.index` specialised to characters: position of the first occurrence,
returning the list length when absent (Python raises `ValueError` there;
that case is unreachable for validated cards). -/
def indexOfChar (c : Char) : List Char → Nat
  | [] => 0
  | a :: as => if a == c then 0 else 1 + indexOfChar c as

/-- `CARD_VALUE_ORDER.index(c)`. -/
def cvoIndex (c : Char) : Nat := indexOfChar c CARD_VALUE_ORDER

/-- A card: a rank symbol (`value`) and a suit symbol, as stored by
`Card.__init__`. Validation lives in `Card.mk?`. -/
structure Card where
  value : Char
  suit : Char
deriving DecidableEq

/-- `Card.__init__`: suit is checked first, then the value; an out-of-range
symbol raises `ValueError`, modelled by `none`. -/
def Card.mk? (value suit : Char) : Option Card :=
  if suit ∈ SUITS then
    if value ∈ CARD_VALUE_ORDER then some ⟨value, suit⟩ else none
  else none

/-- `Card.__cmp__`: raises (`none`) for differing suits; otherwise returns
`other_index - self_idx`. The source assigns
`other_index = CARD_VALUE_ORDER.index(self.value)` — it reads `self.value`,
not `other.value` — and that is reproduced here verbatim. -/
def Card.cmp (self other : Card) : Option Int :=
  if self.suit ≠ other.suit then none
  else
    let self_idx : Int := cvoIndex self.value
    let other_index : Int := cvoIndex self.value
    some (other_index - self_idx)

/-- `Card.__str__`: the two-character rank+suit representation; `__hash__`
hashes this string. -/
def Card.str (c : Card) : List Char := [c.value, c.suit]

/-- Card equality as Python set machinery realises it: the hash (derived
from `Card.str`) is compared first, and only cards in the same hash bucket
are compared via `__cmp__ == 0`.  `none` would mean the underlying
comparison raised. -/
def cardSetEq (a b : Card) : Option Bool :=
  if Card.str a = Card.str b then (Card.cmp a b).map (fun d => d == 0)
  else some false

/-- A hand: the list of cards stored by `Hand.__init__` together with the
established length-5 invariant. -/
structure Hand where
  cards : List Card
  len5 : cards.length = 5

/-- `Hand.__init__`: raises (`none`) unless exactly 5 cards are given. -/
def Hand.mk? (cards : List Card) : Option Hand :=
  if h : cards.length = 5 then some ⟨cards, h⟩ else none

/-- Stable insertion used to model Python `sorted`. -/
def insertSortedBy (le : α → α → Bool) (a : α) : List α → List α
  | [] => [a]
  | b :: bs => if le a b then a :: b :: bs else b :: insertSortedBy le a bs

/-- Python `sorted` (stable, ascending) modelled as insertion sort. -/
def sortBy (le : α → α → Bool) (l : List α) : List α :=
  l.foldr (insertSortedBy le) []

/-- `Hand._sort_by_value`: the hand's rank symbols sorted by their position
in `CARD_VALUE_ORDER`. -/
def Hand.sort_by_value (h : Hand) : List Char :=
  sortBy (fun a b => Nat.ble (cvoIndex a) (cvoIndex b)) (h.cards.map Card.value)

/-- `Hand._max_values`: evaluates `self._sort_by_value()[-1]` and discards
it — the method has no `return`, so it always yields `None`. -/
def Hand.max_values (h : Hand) : Option Char :=
  let _ := h.sort_by_value.getLast?
  none

/-- `Hand._same_suit`: every card's suit equals the first card's suit.
A hand is never empty (length-5 invariant), so the `[]` arm is unreachable. -/
def Hand.same_suit (h : Hand) : Bool :=
  match h.cards with
  | [] => true
  | head :: _ => h.cards.all fun card => card.suit == head.suit

/-- `Hand._count` followed by `sorted(count.values())`: the ascending list
of per-rank multiplicities. -/
def Hand.count_values (h : Hand) : List Nat :=
  let values := h.cards.map Card.value
  sortBy Nat.ble (values.dedup.map fun v => values.count v)

/-- Membership of `needle` as a leading segment of `haystack`. -/
def listStartsWith : List Char → List Char → Bool
  | [], _ => true
  | _ :: _, [] => false
  | a :: as, b :: bs => a == b && listStartsWith as bs

/-- Python substring containment `needle in haystack`. -/
def substringOf (needle : List Char) : List Char → Bool
  | [] => listStartsWith needle []
  | b :: bs => listStartsWith needle (b :: bs) || substringOf needle bs

/-- `Hand._straight`: the sorted rank symbols form a contiguous substring of
`CARD_VALUE_ORDER`. -/
def Hand.straight (h : Hand) : Bool :=
  substringOf h.sort_by_value CARD_VALUE_ORDER

/-- Python set equality of two symbol collections (mutual membership). -/
def listSetEq (a b : List Char) : Bool :=
  a.all (fun x => b.contains x) && b.all (fun x => a.contains x)

/-- The literal set `['a','k','q','j','t']` from `is_royal_flush`. -/
def royalFlushValues : List Char := ['a', 'k', 'q', 'j', 't']

/-- `Hand.is_royal_flush`: same suit and rank set exactly {a,k,q,j,t};
returns the code 1 when it holds, a falsy value (`none`) otherwise. -/
def Hand.is_royal_flush (h : Hand) : Option Nat :=
  if h.same_suit then
    if listSetEq (h.cards.map Card.value) royalFlushValues then some 1 else none
  else none

/-- `Hand.is_straight_flush`: same suit and contiguous ranks; code 2. -/
def Hand.is_straight_flush (h : Hand) : Option Nat :=
  if h.same_suit && h.straight then some 2 else none

/-- `Hand.is_poker` (four of a kind): multiplicities [1,4]; code 3. -/
def Hand.is_poker (h : Hand) : Option Nat :=
  if h.count_values = [1, 4] then some 3 else none

/-- `Hand.is_full`: multiplicities [2,3]; code 4. -/
def Hand.is_full (h : Hand) : Option Nat :=
  if h.count_values = [2, 3] then some 4 else none

/-- `Hand.is_flush`: same suit; code 5. -/
def Hand.is_flush (h : Hand) : Option Nat :=
  if h.same_suit then some 5 else none

/-- `Hand.is_straight`: contiguous ranks regardless of suit; code 6. -/
def Hand.is_straight (h : Hand) : Option Nat :=
  if h.straight then some 6 else none

/-- `Hand.is_set` (three of a kind): multiplicities [1,1,3]; code 7. -/
def Hand.is_set (h : Hand) : Option Nat :=
  if h.count_values = [1, 1, 3] then some 7 else none

/-- `Hand.is_two_pair`: multiplicities [1,2,2]; code 8. -/
def Hand.is_two_pair (h : Hand) : Option Nat :=
  if h.count_values = [1, 2, 2] then some 8 else none

/-- `Hand.is_pair`: multiplicities [1,1,1,2]; code 9. -/
def Hand.is_pair (h : Hand) : Option Nat :=
  if h.count_values = [1, 1, 1, 2] then some 9 else none

/-- `Hand.classify_hand`: the predicates are tried in the fixed order and
the first truthy result (its category code) is returned; 10 otherwise. -/
def Hand.classify_hand (h : Hand) : Nat :=
  (([h.is_royal_flush, h.is_straight_flush, h.is_poker, h.is_full,
     h.is_flush, h.is_straight, h.is_set, h.is_two_pair,
     h.is_pair].filterMap id).headD 10)

/-- Index lookup on the optional maximum value, as the final arm of the
category-10 tie-break would perform it.  That arm is unreachable: both
`max_values` results are always `None` (Python would raise a `TypeError`
on `CARD_VALUE_ORDER.index(None)`). -/
def cvoIndexOpt : Option Char → Nat
  | some c => cvoIndex c
  | none => 0

/-- `Hand.__cmp__`: category codes decide (lower code returns 1, i.e. the
left hand is greater); equal non-10 codes tie; the 10/10 branch consults
`max_values` (always `None`, so it returns 0 at `max_ == max_other`).
The trailing arm mirrors Python falling off the `elif` chain, which is
unreachable by trichotomy. -/
def Hand.hand_cmp (self other : Hand) : Int :=
  let handtype := self.classify_hand
  let other_handtype := other.classify_hand
  if handtype < other_handtype then 1
  else if handtype > other_handtype then -1
  else if handtype = other_handtype ∧ handtype = 10 then
    let max_ := self.max_values
    let max_other := other.max_values
    if max_ = max_other then 0
    else if max_ = some 'a' then 1
    else if max_other = some 'a' then -1
    else (cvoIndexOpt max_other : Int) - (cvoIndexOpt max_ : Int)
  else if handtype = other_handtype then 0
  else 0

/-- `Hand._search_space`: for `num` in `xrange(1, 6)` and every `num`-sized
combination `t` of the (deduplicated) hand cards, the candidate card set
`(_hand - set(t)) | set(deck[:num])`.  Candidate `Hand` construction is
deferred to the consumer so that its possible `ValueError` is explicit. -/
def Hand.search_space (hand : Hand) (deck : List Card) : List (List Card) :=
  ((List.range' 1 5).map fun num =>
    (List.sublistsLen num hand.cards.dedup).map fun t =>
      ((hand.cards.dedup.filter fun c => !(t.contains c)) ++ deck.take num).dedup).flatten

/-- One step of `Hand.search`'s loop: build the candidate hand (propagating
the constructor's failure) and keep it only when it beats the current best. -/
def searchStep (best : Hand) (cs : List Card) : Option Hand :=
  (Hand.mk? cs).map fun new_hand =>
    if Hand.hand_cmp new_hand best > 0 then new_hand else best

/-- `Hand.search`: fold over the search space starting from the given hand;
`none` models the `ValueError` a malformed candidate raises mid-iteration. -/
def Hand.search (hand : Hand) (deck : List Card) : Option Hand :=
  (Hand.search_space hand deck).foldlM searchStep hand

/-! ### Helper lemmas -/

lemma is_royal_flush_cases (h : Hand) :
    h.is_royal_flush = none ∨ h.is_royal_flush = some 1 := by
  unfold Hand.is_royal_flush; split_ifs <;> simp

lemma is_straight_flush_cases (h : Hand) :
    h.is_straight_flush = none ∨ h.is_straight_flush = some 2 := by
  unfold Hand.is_straight_flush; split_ifs <;> simp

lemma is_poker_cases (h : Hand) :
    h.is_poker = none ∨ h.is_poker = some 3 := by
  unfold Hand.is_poker; split_ifs <;> simp

lemma is_full_cases (h : Hand) :
    h.is_full = none ∨ h.is_full = some 4 := by
  unfold Hand.is_full; split_ifs <;> simp

lemma is_flush_cases (h : Hand) :
    h.is_flush = none ∨ h.is_flush = some 5 := by
  unfold Hand.is_flush; split_ifs <;> simp

lemma is_straight_cases (h : Hand) :
    h.is_straight = none ∨ h.is_straight = some 6 := by
  unfold Hand.is_straight; split_ifs <;> simp

lemma is_set_cases (h : Hand) :
    h.is_set = none ∨ h.is_set = some 7 := by
  unfold Hand.is_set; split_ifs <;> simp

lemma is_two_pair_cases (h : Hand) :
    h.is_two_pair = none ∨ h.is_two_pair = some 8 := by
  unfold Hand.is_two_pair; split_ifs <;> simp

lemma is_pair_cases (h : Hand) :
    h.is_pair = none ∨ h.is_pair = some 9 := by
  unfold Hand.is_pair; split_ifs <;> simp

lemma headD_filterMap_bound (l : List (Option Nat)) (d : Nat)
    (hl : ∀ o ∈ l, o = none ∨ ∃ n, o = some n ∧ 1 ≤ n ∧ n ≤ 10)
    (hd : 1 ≤ d ∧ d ≤ 10) :
    1 ≤ (l.filterMap id).headD d ∧ (l.filterMap id).headD d ≤ 10 := by
  induction l with
  | nil => simpa using hd
  | cons a t ih =>
      rcases hl a (List.mem_cons_self a t) with rfl | ⟨n, rfl, hn⟩
      · simpa using ih fun o ho => hl o (List.mem_cons_of_mem _ ho)
      · simpa using hn

/-- `hand_cmp` only ever reports the comparison of category codes: the
category-10 branch degenerates to 0 because `max_values` is always `none`. -/
lemma hand_cmp_eq (a b : Hand) :
    Hand.hand_cmp a b =
      if a.classify_hand < b.classify_hand then 1
      else if b.classify_hand < a.classify_hand then -1
      else 0 := by
  unfold Hand.hand_cmp
  simp only [Hand.max_values, gt_iff_lt]
  split_ifs with h1 h2 h3 h4 <;> first | rfl | omega

lemma hand_cmp_pos {a b : Hand} (h : Hand.hand_cmp a b > 0) :
    a.classify_hand < b.classify_hand := by
  rw [hand_cmp_eq] at h
  split_ifs at h with h1 h2
  · exact h1
  · exact absurd h (by decide)
  · exact absurd h (by decide)

/-! ### Concrete cards and hands used by witnesses -/

/-- The non-flush ace-high straight T,J,Q,K,A across mixed suits. -/
def aceHighMixed : Hand :=
  ⟨[⟨'t', 'h'⟩, ⟨'j', 'h'⟩, ⟨'q', 'c'⟩, ⟨'k', 'd'⟩, ⟨'a', 's'⟩], rfl⟩

/-- A one-pair hand (category 9). -/
def pairHand : Hand :=
  ⟨[⟨'2', 'h'⟩, ⟨'2', 's'⟩, ⟨'3', 'h'⟩, ⟨'4', 'c'⟩, ⟨'5', 'd'⟩], rfl⟩

/-- Another one-pair hand (category 9). -/
def pairHandB : Hand :=
  ⟨[⟨'9', 'h'⟩, ⟨'9', 's'⟩, ⟨'3', 'h'⟩, ⟨'4', 'c'⟩, ⟨'6', 'd'⟩], rfl⟩

/-- A highest-card hand (category 10). -/
def highHand : Hand :=
  ⟨[⟨'2', 'h'⟩, ⟨'4', 's'⟩, ⟨'6', 'h'⟩, ⟨'9', 'c'⟩, ⟨'j', 'd'⟩], rfl⟩

/-- Another highest-card hand (category 10). -/
def highHandB : Hand :=
  ⟨[⟨'3', 'd'⟩, ⟨'5', 's'⟩, ⟨'2', 'h'⟩, ⟨'q', 'd'⟩, ⟨'t', 'd'⟩], rfl⟩

/-! ### Claim theorems -/

/-- C1: `classify_hand` always returns a single code in 1..10, and the
non-flush ace-high straight T,J,Q,K,A over mixed suits classifies as
highest-card (10), the straight predicate rejecting it because its sorted
rank string `atjqk` is not a contiguous substring of `a23456789tjqk`. -/
theorem classify_range_and_ace_high_quirk :
    (∀ h : Hand, 1 ≤ h.classify_hand ∧ h.classify_hand ≤ 10) ∧
    aceHighMixed.classify_hand = 10 ∧ aceHighMixed.is_straight = none := by
  refine ⟨fun h => ?_, by decide, by decide⟩
  unfold Hand.classify_hand
  refine headD_filterMap_bound _ _ (fun o ho => ?_) (by omega)
  simp only [List.mem_cons, List.not_mem_nil, or_false] at ho
  rcases ho with rfl | rfl | rfl | rfl | rfl | rfl | rfl | rfl | rfl
  · rcases is_royal_flush_cases h with hx | hx
    · exact Or.inl hx
    · exact Or.inr ⟨1, hx, by omega⟩
  · rcases is_straight_flush_cases h with hx | hx
    · exact Or.inl hx
    · exact Or.inr ⟨2, hx, by omega⟩
  · rcases is_poker_cases h with hx | hx
    · exact Or.inl hx
    · exact Or.inr ⟨3, hx, by omega⟩
  · rcases is_full_cases h with hx | hx
    · exact Or.inl hx
    · exact Or.inr ⟨4, hx, by omega⟩
  · rcases is_flush_cases h with hx | hx
    · exact Or.inl hx
    · exact Or.inr ⟨5, hx, by omega⟩
  · rcases is_straight_cases h with hx | hx
    · exact Or.inl hx
    · exact Or.inr ⟨6, hx, by omega⟩
  · rcases is_set_cases h with hx | hx
    · exact Or.inl hx
    · exact Or.inr ⟨7, hx, by omega⟩
  · rcases is_two_pair_cases h with hx | hx
    · exact Or.inl hx
    · exact Or.inr ⟨8, hx, by omega⟩
  · rcases is_pair_cases h with hx | hx
    · exact Or.inl hx
    · exact Or.inr ⟨9, hx, by omega⟩

/-- C4: the hand comparator declares the hand with the strictly lower
category code the winner (`hand_cmp` returns 1 when the left hand's code is
lower, -1 when higher), and two hands with the same category code other
than 10 compare as equal, with no kicker or rank tie-break. -/
theorem hand_cmp_category_order : ∀ a b : Hand,
    (a.classify_hand < b.classify_hand → Hand.hand_cmp a b = 1) ∧
    (b.classify_hand < a.classify_hand → Hand.hand_cmp a b = -1) ∧
    (a.classify_hand = b.classify_hand → a.classify_hand ≠ 10 →
      Hand.hand_cmp a b = 0) := by
  intro a b
  rw [hand_cmp_eq]
  refine ⟨fun hlt => ?_, fun hgt => ?_, fun heq _ => ?_⟩
  · rw [if_pos hlt]
  · rw [if_neg (by omega), if_pos hgt]
  · rw [if_neg (by omega), if_neg (by omega)]

/-- C4 witness: at one-pair vs highest-card hands the comparator picks the
lower category, and two one-pair hands compare as equal. -/
theorem hand_cmp_category_order_witness :
    Hand.hand_cmp pairHand highHand = 1 ∧
    Hand.hand_cmp highHand pairHand = -1 ∧
    Hand.hand_cmp pairHand pairHandB = 0 :=
  ⟨(hand_cmp_category_order pairHand highHand).1 (by decide),
   (hand_cmp_category_order highHand pairHand).2.1 (by decide),
   (hand_cmp_category_order pairHand pairHandB).2.2 (by decide) (by decide)⟩

/-- C5: `max_values` computes and discards the maximum rank, always
yielding `None`; consequently two highest-card (category 10) hands always
compare as equal through the `max_ == max_other` branch, and the
comparison never raises. -/
theorem highest_card_tie_always_equal : ∀ a b : Hand,
    Hand.max_values a = none ∧
    (a.classify_hand = 10 → b.classify_hand = 10 → Hand.hand_cmp a b = 0) := by
  intro a b
  refine ⟨rfl, fun ha hb => ?_⟩
  rw [hand_cmp_eq, ha, hb]
  simp

/-- C5 witness: two concrete highest-card hands compare as equal and the
helper returns no value. -/
theorem highest_card_tie_always_equal_witness :
    Hand.max_values highHand = none ∧ Hand.hand_cmp highHand highHandB = 0 :=
  ⟨(highest_card_tie_always_equal highHand highHandB).1,
   (highest_card_tie_always_equal highHand highHandB).2 (by decide) (by decide)⟩

/-- C6 counterevidence: `Card.__cmp__` computes `other_index` from
`self.value`, so on two same-suit cards of different ranks (2♥ vs 3♥,
positions 1 and 2 in the rank order) it returns 0 instead of the claimed
nonzero rank-position difference; differing suits do raise as claimed. -/
theorem card_cmp_same_suit_always_zero :
    Card.cmp ⟨'2', 'h'⟩ ⟨'3', 'h'⟩ = some 0 ∧
    cvoIndex '2' ≠ cvoIndex '3' ∧
    Card.cmp ⟨'2', 'h'⟩ ⟨'3', 's'⟩ = none := by
  refine ⟨by decide, by decide, by decide⟩

/-- C7: card equality, as the program's set machinery realises it (hash of
the two-character string first, `__cmp__ == 0` only within a bucket),
holds exactly when both the rank and the suit match, and is false — with
no comparison error raised — whenever either field differs. -/
theorem card_equality_iff_fields_match : ∀ a b : Card,
    cardSetEq a b = some (decide (a.value = b.value ∧ a.suit = b.suit)) := by
  intro a b
  unfold cardSetEq Card.str Card.cmp
  by_cases hv : a.value = b.value
  · by_cases hs : a.suit = b.suit
    · rw [if_pos (by simp [hv, hs])]
      simp [hs, hv]
    · rw [if_neg (by simp [hs])]
      simp [hv, hs]
  · rw [if_neg (by simp [hv])]
    simp [hv]

/-- C8: card construction succeeds exactly for the 13 rank symbols paired
with the 4 suit symbols, and hand construction succeeds exactly for card
lists of length 5; out-of-range inputs fail with a validation error. -/
theorem construction_validation :
    (∀ v s : Char,
      (Card.mk? v s).isSome ↔ (v ∈ CARD_VALUE_ORDER ∧ s ∈ SUITS)) ∧
    (∀ cs : List Card, (Hand.mk? cs).isSome ↔ cs.length = 5) := by
  constructor
  · intro v s
    unfold Card.mk?
    split_ifs with hs hv
    · simp [hs, hv]
    · simp [hs, hv]
    · simp [hs]
  · intro cs
    unfold Hand.mk?
    split_ifs with hl <;> simp [hl]

/-! ### Search helper lemmas -/

lemma foldlM_searchStep_le (cands : List (List Card)) :
    ∀ best r : Hand, cands.foldlM searchStep best = some r →
      r.classify_hand ≤ best.classify_hand := by
  induction cands with
  | nil =>
      intro best r hr
      simp only [List.foldlM_nil, pure, Option.some.injEq] at hr
      exact hr ▸ le_refl _
  | cons a t ih =>
      intro best r hr
      rw [List.foldlM_cons] at hr
      cases hmk : Hand.mk? a with
      | none =>
          rw [show searchStep best a = none by simp [searchStep, hmk]] at hr
          simp at hr
      | some nh =>
          rw [show searchStep best a
                = some (if Hand.hand_cmp nh best > 0 then nh else best) by
              simp [searchStep, hmk]] at hr
          replace hr : List.foldlM searchStep
              (if Hand.hand_cmp nh best > 0 then nh else best) t = some r := hr
          by_cases hc : Hand.hand_cmp nh best > 0
          · rw [if_pos hc] at hr
            exact le_trans (ih nh r hr) (le_of_lt (hand_cmp_pos hc))
          · rw [if_neg hc] at hr
            exact ih best r hr

lemma foldlM_searchStep_none (cands : List (List Card)) :
    ∀ best : Hand, (∃ cs ∈ cands, Hand.mk? cs = none) →
      cands.foldlM searchStep best = none := by
  induction cands with
  | nil =>
      intro best h
      rcases h with ⟨cs, hmem, _⟩
      simp at hmem
  | cons a t ih =>
      intro best h
      rcases h with ⟨cs, hmem, hnone⟩
      rw [List.foldlM_cons]
      rcases List.mem_cons.mp hmem with rfl | hmem'
      · rw [show searchStep best cs = none by simp [searchStep, hnone]]
        rfl
      · cases hmk : Hand.mk? a with
        | none =>
            rw [show searchStep best a = none by simp [searchStep, hmk]]
            rfl
        | some nh =>
            rw [show searchStep best a
                  = some (if Hand.hand_cmp nh best > 0 then nh else best) by
                simp [searchStep, hmk]]
            show List.foldlM searchStep
              (if Hand.hand_cmp nh best > 0 then nh else best) t = none
            exact ih _ ⟨cs, hmem', hnone⟩

/-- C2: whenever the search returns normally, the result never classifies
worse (a higher category code) than the starting hand: the start is the
default and a candidate replaces the current best only when the comparator
ranks it strictly better. -/
theorem search_never_worse (h : Hand) (d : List Card) (r : Hand)
    (hr : Hand.search h d = some r) :
    r.classify_hand ≤ h.classify_hand :=
  foldlM_searchStep_le _ h r hr

/-- The starting hand of driver assertion 2 (full house, category 4). -/
def fullHouseStart : Hand :=
  ⟨[⟨'2', 'h'⟩, ⟨'2', 's'⟩, ⟨'3', 'h'⟩, ⟨'3', 's'⟩, ⟨'3', 'c'⟩], rfl⟩

/-- The deck of driver assertion 2. -/
def fullHouseDeck : List Card :=
  [⟨'2', 'd'⟩, ⟨'3', 'd'⟩, ⟨'6', 'c'⟩, ⟨'9', 'c'⟩, ⟨'t', 'h'⟩]

/-- The hand the embedding's search returns on driver assertion 2
(four of a kind, category 3). -/
def fullHouseResult : Hand :=
  ⟨[⟨'3', 'h'⟩, ⟨'3', 's'⟩, ⟨'3', 'c'⟩, ⟨'2', 'd'⟩, ⟨'3', 'd'⟩], rfl⟩

set_option maxRecDepth 20000 in
/-- C2 witness: on the full-house example the search returns a hand whose
category (3) is not worse than the start's (4). -/
theorem search_never_worse_witness :
    fullHouseResult.classify_hand ≤ fullHouseStart.classify_hand :=
  search_never_worse fullHouseStart fullHouseDeck fullHouseResult (by rfl)

/-- C3: the search space enumerates, for each k in 1..5 and each k-sized
subset T of the (deduplicated) hand cards, exactly the candidate obtained
by removing T and adding the first k deck cards — the same k leading deck
cards for every subset of size k — and it contains at most
C(5,1)+C(5,2)+C(5,3)+C(5,4)+C(5,5) = 31 candidates. -/
theorem search_space_enumeration : ∀ (h : Hand) (d : List Card),
    (Hand.search_space h d).length ≤ 31 ∧
    (∀ cs, cs ∈ Hand.search_space h d ↔
      ∃ num t, 1 ≤ num ∧ num ≤ 5 ∧ List.Sublist t h.cards.dedup ∧
        t.length = num ∧
        cs = ((h.cards.dedup.filter fun c => !(t.contains c))
               ++ d.take num).dedup) := by
  intro h d
  constructor
  · have hm : h.cards.dedup.length ≤ 5 := by
      have hs := (List.dedup_sublist h.cards).length_le
      have h5 := h.len5
      omega
    unfold Hand.search_space
    rw [List.length_flatten]
    have hr : List.range' 1 5 = [1, 2, 3, 4, 5] := rfl
    rw [hr]
    simp only [List.map_cons, List.map_nil, List.length_map,
      List.length_sublistsLen, List.sum_cons, List.sum_nil]
    have b1 := le_trans (Nat.choose_le_choose 1 hm) (by decide : Nat.choose 5 1 ≤ 5)
    have b2 := le_trans (Nat.choose_le_choose 2 hm) (by decide : Nat.choose 5 2 ≤ 10)
    have b3 := le_trans (Nat.choose_le_choose 3 hm) (by decide : Nat.choose 5 3 ≤ 10)
    have b4 := le_trans (Nat.choose_le_choose 4 hm) (by decide : Nat.choose 5 4 ≤ 5)
    have b5 := le_trans (Nat.choose_le_choose 5 hm) (by decide : Nat.choose 5 5 ≤ 1)
    omega
  · intro cs
    unfold Hand.search_space
    rw [List.mem_flatten]
    constructor
    · rintro ⟨sub, hsub, hcs⟩
      rw [List.mem_map] at hsub
      rcases hsub with ⟨num, hnum, rfl⟩
      rw [List.mem_map] at hcs
      rcases hcs with ⟨t, ht, rfl⟩
      rw [List.mem_sublistsLen] at ht
      have hnum' : 1 ≤ num ∧ num < 1 + 5 := List.mem_range'_1.mp hnum
      exact ⟨num, t, hnum'.1, by omega, ht.1, ht.2, rfl⟩
    · rintro ⟨num, t, h1, h5, hsubl, hlen, rfl⟩
      refine ⟨(List.sublistsLen num h.cards.dedup).map fun t' =>
        ((h.cards.dedup.filter fun c => !(t'.contains c))
          ++ d.take num).dedup, ?_, ?_⟩
      · rw [List.mem_map]
        exact ⟨num, List.mem_range'_1.mpr ⟨h1, by omega⟩, rfl⟩
      · rw [List.mem_map]
        exact ⟨t, List.mem_sublistsLen.mpr ⟨hsubl, hlen⟩, rfl⟩

/-- C9: for a 5-card hand of pairwise-distinct cards and a deck shorter
than 5 cards, the search raises the hand-size validation error (modelled
`none`): the k = 5 candidate keeps no hand card and can gather at most
`len(deck) < 5` replacement cards, so its `Hand` construction fails. -/
theorem search_short_deck_raises (h : Hand) (d : List Card)
    (hnd : h.cards.Nodup) (hd : d.length < 5) :
    Hand.search h d = none := by
  apply foldlM_searchStep_none
  refine ⟨(d.take 5).dedup, ?_, ?_⟩
  · unfold Hand.search_space
    rw [List.mem_flatten]
    refine ⟨(List.sublistsLen 5 h.cards.dedup).map fun t =>
      ((h.cards.dedup.filter fun c => !(t.contains c)) ++ d.take 5).dedup,
      ?_, ?_⟩
    · rw [List.mem_map]
      exact ⟨5, by decide, rfl⟩
    · rw [List.mem_map]
      refine ⟨h.cards.dedup,
        List.mem_sublistsLen.mpr ⟨List.Sublist.refl _, ?_⟩, ?_⟩
      · rw [hnd.dedup, h.len5]
      · have hfil :
            (h.cards.dedup.filter fun c => !(h.cards.dedup.contains c)) = [] := by
          rw [List.filter_eq_nil_iff]
          intro a ha
          simp [ha]
        rw [hfil, List.nil_append]
  · unfold Hand.mk?
    rw [dif_neg]
    have h1 := (List.dedup_sublist (d.take 5)).length_le
    have h2 : (d.take 5).length ≤ d.length := by
      rw [List.length_take]
      omega
    omega

/-- A two-card deck used to exercise the short-deck failure. -/
def shortDeck : List Card := [⟨'3', 'd'⟩, ⟨'5', 's'⟩]

/-- C9 witness: a concrete distinct-card hand with a 2-card deck makes the
search raise. -/
theorem search_short_deck_raises_witness :
    Hand.search highHand shortDeck = none :=
  search_short_deck_raises highHand shortDeck (by decide) (by decide)

/-- For a duplicate-free sublist `t` of a duplicate-free list `u`, filtering
away the members of `t` removes exactly `t.length` elements. -/
lemma length_filter_not_contains {t u : List Card} (ht : List.Sublist t u) :
    u.Nodup → (u.filter fun c => !(t.contains c)).length + t.length = u.length := by
  induction ht with
  | slnil =>
      intro _
      simp
  | @cons l₁ l₂ a hsub ih =>
      intro hnd
      rcases List.nodup_cons.mp hnd with ⟨ha, hnd'⟩
      have hal : a ∉ l₁ := fun hx => ha (hsub.subset hx)
      rw [List.filter_cons, if_pos (by simp [hal])]
      have := ih hnd'
      simp only [List.length_cons]
      omega
  | @cons₂ l₁ l₂ a hsub ih =>
      intro hnd
      rcases List.nodup_cons.mp hnd with ⟨ha, hnd'⟩
      rw [List.filter_cons, if_neg (by simp)]
      have hcong : (l₂.filter fun c => !((a :: l₁).contains c))
          = l₂.filter fun c => !(l₁.contains c) := by
        apply List.filter_congr
        intro c hc
        have hca : c ≠ a := fun e => ha (e ▸ hc)
        simp [hca]
      rw [hcong]
      have := ih hnd'
      simp only [List.length_cons]
      omega

/-- C10: when the starting hand holds two copies of the same card (which
construction permits), the search raises the hand-size validation error on
a candidate: the set conversion collapses the duplicates, so every
candidate — already the first — has fewer than 5 cards. -/
theorem search_duplicate_hand_raises (h : Hand) (d : List Card)
    (hdup : ¬ h.cards.Nodup) :
    Hand.search h d = none := by
  have h5 := h.len5
  have hm : h.cards.dedup.length ≤ 4 := by
    have hs := (List.dedup_sublist h.cards).length_le
    by_contra hgt
    have heq : h.cards.dedup.length = h.cards.length := by omega
    have hde := (List.dedup_sublist h.cards).eq_of_length heq
    exact hdup (hde ▸ List.nodup_dedup h.cards)
  have hne : h.cards.dedup ≠ [] := by
    intro he
    have hnil : h.cards = [] := (List.dedup_eq_nil h.cards).mp he
    rw [hnil] at h5
    simp at h5
  obtain ⟨a, l, hal⟩ := List.exists_cons_of_ne_nil hne
  apply foldlM_searchStep_none
  refine ⟨((h.cards.dedup.filter fun c => !(([a] : List Card).contains c))
            ++ d.take 1).dedup, ?_, ?_⟩
  · unfold Hand.search_space
    rw [List.mem_flatten]
    refine ⟨(List.sublistsLen 1 h.cards.dedup).map fun t =>
      ((h.cards.dedup.filter fun c => !(t.contains c)) ++ d.take 1).dedup,
      ?_, ?_⟩
    · rw [List.mem_map]
      exact ⟨1, by decide, rfl⟩
    · rw [List.mem_map]
      refine ⟨[a], List.mem_sublistsLen.mpr
        ⟨List.singleton_sublist.mpr ?_, rfl⟩, rfl⟩
      rw [hal]
      exact List.mem_cons_self a l
  · unfold Hand.mk?
    rw [dif_neg]
    have hsl : List.Sublist ([a] : List Card) h.cards.dedup := by
      rw [List.singleton_sublist, hal]
      exact List.mem_cons_self a l
    have hfl := length_filter_not_contains hsl (List.nodup_dedup h.cards)
    have htk : (d.take 1).length ≤ 1 := by
      rw [List.length_take]
      omega
    have hdl := (List.dedup_sublist
      ((h.cards.dedup.filter fun c => !(([a] : List Card).contains c))
        ++ d.take 1)).length_le
    rw [List.length_append] at hdl
    simp only [List.length_singleton] at hfl
    omega

/-- A concrete hand holding the 2♥ twice. -/
def dupHand : Hand :=
  ⟨[⟨'2', 'h'⟩, ⟨'2', 'h'⟩, ⟨'6', 'h'⟩, ⟨'9', 'c'⟩, ⟨'j', 'd'⟩], rfl⟩

/-- A 5-card deck used with the duplicate hand. -/
def fiveDeck : List Card :=
  [⟨'3', 'd'⟩, ⟨'5', 's'⟩, ⟨'7', 'c'⟩, ⟨'8', 'c'⟩, ⟨'9', 'd'⟩]

/-- C10 witness: the duplicate-card hand makes the search raise even with a
full 5-card deck. -/
theorem search_duplicate_hand_raises_witness :
    Hand.search dupHand fiveDeck = none :=
  search_duplicate_hand_raises dupHand fiveDeck (by decide)
